import Mathlib

/-!
Task manager client (`frontend/src/App.js`): derived views, deadline status, bulk
operations.

A shallow embedding of the pure computations of `App` (`stats`, `filteredTasks`,
`getDeadlineStatus`, the reminder scan) and of the effect traces of its handlers
(`markAll`, `clearCompleted`, `handleToggleComplete`, `handleEditTask`,
`handleAddTask`), followed by the properties proved of them.

Conventions of the embedding

* A task record is the object the client sends to and receives from the collection
  endpoint.  Fields the source reads through a guard (`t.title || ""`,
  `a.created_at || ""`, `rank[p] || 0`, `!t.deadline`) may be absent and are `Option`s.
* Instants are integers, in milliseconds since the epoch.  A deadline is `null` or a
  non-empty date-time text (`handleAddTask` stores `deadline || null`); it is held as
  the instant `new Date(task.deadline)` denotes.
* `Array.prototype.sort(cmp)` is a stable sort; it is embedded as insertion sort on
  the relation `cmp a b ≤ 0`, which keeps the earlier of two elements that compare
  equal in front.  This is the order every engine gives when `cmp` is a consistent
  comparison; when it is not, the order depends on the engine, and `sortShort` gives
  the one of V8.
* `toLowerCase` and `localeCompare` depend on the Unicode and collation data of the
  engine: they are arguments of the embedding (`Runtime`), and what is proved holds
  for every such pair of functions, or for those meeting a stated requirement.
* The lookup `rank[p]` finds the keys of the literal and the members every object
  inherits from `Object.prototype`.
* An asynchronous handler is embedded as the sequence of effects it issues, given the
  answer to `window.confirm` and the outcome of each network call.
-/

namespace TaskManager

/-! ## Data model -/

/-- The attachment object `{ name, type, data }` built in `handleAddTask`. -/
structure Attachment where
  name : String
  type : String
  data : String
deriving DecidableEq, Repr

/-- A task record of the collection: `id` and `created_at` come from the backend, the
other fields are the ones `handleAddTask` sends; `deadline` is the instant of the stored
date-time text, `none` when the record has no deadline. -/
structure Task where
  id : Nat
  title : Option String
  priority : Option String
  completed : Bool
  deadline : Option Int
  created_at : Option String
  attachment : Option Attachment
deriving DecidableEq, Repr

/-! ## Runtime functions used by the source -/

/-- The code points `String.prototype.trim` strips: ECMAScript WhiteSpace and
LineTerminator. -/
def isTrimmed (c : Char) : Bool :=
  let n := c.toNat
  n = 0x09 || n = 0x0A || n = 0x0B || n = 0x0C || n = 0x0D || n = 0x20 || n = 0xA0 ||
  n = 0x1680 || (0x2000 ≤ n && n ≤ 0x200A) || n = 0x2028 || n = 0x2029 || n = 0x202F ||
  n = 0x205F || n = 0x3000 || n = 0xFEFF

/-- `s.trim()`. -/
def trim (s : String) : String :=
  ⟨((s.data.dropWhile isTrimmed).reverse.dropWhile isTrimmed).reverse⟩

/-- `s.includes(sub)`: `sub` occurs in `s` as a contiguous run. -/
def includes (s sub : String) : Bool :=
  decide (sub.data <:+: s.data)

/-- The string functions of the engine whose values come from its Unicode and collation
data: `s.toLowerCase()` and `a.localeCompare(b)`. -/
structure Runtime where
  toLowerCase : String → String
  localeCompare : String → String → Int

/-- The lower-casing of a text of ASCII characters: the letters A to Z are mapped, the
other characters are kept. -/
def asciiLower (s : String) : String :=
  ⟨s.data.map Char.toLower⟩

/-- What every engine's `toLowerCase` does on a text of ASCII characters. -/
def Runtime.LowersAscii (rt : Runtime) : Prop :=
  ∀ s : String, (∀ c ∈ s.data, c.toNat < 128) → rt.toLowerCase s = asciiLower s

/-- What ECMAScript requires of `localeCompare`: a consistent comparison of all texts
(the sign turns over when the arguments are exchanged, and "not after" is
transitive).  Distinct texts may compare equal. -/
def Runtime.Collates (rt : Runtime) : Prop :=
  (∀ a b : String, rt.localeCompare a b < 0 ↔ 0 < rt.localeCompare b a) ∧
  (∀ a b c : String, rt.localeCompare a b ≤ 0 → rt.localeCompare b c ≤ 0 →
    rt.localeCompare a c ≤ 0)

/-- A three-way comparison of two texts character by character, by code point. -/
def codePointCompare (a b : String) : Int :=
  if a.data < b.data then -1 else if b.data < a.data then 1 else 0

/-- A sample runtime: ASCII lower-casing and comparison by code point. -/
def plainRuntime : Runtime :=
  { toLowerCase := asciiLower, localeCompare := codePointCompare }

/-- A text without its U+0000 characters. -/
def dropNul (s : String) : String :=
  ⟨s.data.filter (fun c => c.toNat != 0)⟩

/-- A sample runtime whose comparison gives U+0000 no weight, as the collation of the
engines does: two texts that differ by such a character compare equal. -/
def nulBlindRuntime : Runtime :=
  { toLowerCase := asciiLower,
    localeCompare := fun a b => codePointCompare (dropNul a) (dropNul b) }

/-- `list.sort(cmp)`: stable, an element `a` goes in front of the first `b` with
`cmp(a, b) ≤ 0`.  Every engine gives this order when `cmp` is a consistent comparison on
the elements; for another `cmp` the order is left to the engine. -/
def sort (cmp : Task → Task → Int) (list : List Task) : List Task :=
  List.insertionSort (fun a b => cmp a b ≤ 0) list

/-! ### `Array.prototype.sort` in V8, for an array of fewer than 64 elements

The minimum run length is then the length of the array: the first run is counted (and
reversed when it descends), and the elements after it are put in place one by one by
binary insertion (`CountAndMakeRun`, `BinaryInsertionSort` of `array-sort.tq`). -/

/-- The elements that continue the run after `previous`, and the elements left: a
descending run goes on while the comparison is negative, an ascending run while it is
not. -/
def runTail (cmp : Task → Task → Int) (descending : Bool) (previous : Task) :
    List Task → List Task × List Task
  | [] => ([], [])
  | current :: rest =>
    if decide (cmp current previous < 0) = descending then
      let r := runTail cmp descending current rest
      (current :: r.1, r.2)
    else ([], current :: rest)

/-- `CountAndMakeRun`: the first run of the array, reversed when it descends, and the
elements after it. -/
def countAndMakeRun (cmp : Task → Task → Int) : List Task → List Task × List Task
  | a :: b :: rest =>
    let descending := decide (cmp b a < 0)
    let r := runTail cmp descending b rest
    (if descending then (a :: b :: r.1).reverse else a :: b :: r.1, r.2)
  | l => (l, [])

/-- The binary search of `BinaryInsertionSort`: the slot of `pivot` among `front`,
between `left` and `right`:
`order < 0 ? right = mid : left = mid + 1` with `mid = left + ((right - left) >> 1)`. -/
def searchSlot (cmp : Task → Task → Int) (pivot : Task) (front : List Task) :
    Nat → Nat → Nat → Nat
  | 0, left, _ => left
  | fuel + 1, left, right =>
    if left < right then
      let mid := left + (right - left) / 2
      match front[mid]? with
      | some x =>
        if cmp pivot x < 0 then searchSlot cmp pivot front fuel left mid
        else searchSlot cmp pivot front fuel (mid + 1) right
      | none => left
    else left

/-- One step of `BinaryInsertionSort`: `pivot` is put at its slot among the elements
before it. -/
def binaryInsert (cmp : Task → Task → Int) (front : List Task) (pivot : Task) : List Task :=
  let slot := searchSlot cmp pivot front (front.length + 1) 0 front.length
  front.take slot ++ pivot :: front.drop slot

/-- `list.sort(cmp)` as V8 runs it on fewer than 64 elements. -/
def sortShort (cmp : Task → Task → Int) (list : List Task) : List Task :=
  let r := countAndMakeRun cmp list
  r.2.foldl (binaryInsert cmp) r.1

/-! ## Derived data: `stats` (App.js 192-202) -/

/-- The object returned by the `stats` memo. -/
structure Stats where
  total : Int
  completed : Int
  pending : Int
  high : Int
  med : Int
  low : Int
deriving DecidableEq, Repr

/-- The `stats` memo. -/
def stats (tasks : List Task) : Stats :=
  let total : Int := tasks.length
  let completed : Int := (tasks.filter (fun t => t.completed)).length
  let pending := total - completed
  let high : Int := (tasks.filter (fun t => t.priority = some "High")).length
  let med : Int := (tasks.filter (fun t => t.priority = some "Medium")).length
  let low : Int := (tasks.filter (fun t => t.priority = some "Low")).length
  { total := total, completed := completed, pending := pending,
    high := high, med := med, low := low }

/-! ## Derived data: `filteredTasks` (App.js 204-239) -/

/-- The search step: `if (search.trim()) list = list.filter(...)`. -/
def searchStep (rt : Runtime) (search : String) (list : List Task) : List Task :=
  if trim search ≠ "" then
    list.filter
      (fun t => includes (rt.toLowerCase (t.title.getD "")) (rt.toLowerCase search))
  else list

/-- The status step: the two `if (statusFilter === ...)` lines. -/
def statusStep (statusFilter : String) (list : List Task) : List Task :=
  let list := if statusFilter = "Completed" then list.filter (fun t => t.completed) else list
  if statusFilter = "Pending" then list.filter (fun t => !t.completed) else list

/-- The priority step: `if (priorityFilter !== "All") list = list.filter(...)`. -/
def priorityStep (priorityFilter : String) (list : List Task) : List Task :=
  if priorityFilter ≠ "All" then list.filter (fun t => t.priority = some priorityFilter)
  else list

/-- Comparator of the `Newest` sort. -/
def cmpNewest (rt : Runtime) (a b : Task) : Int :=
  rt.localeCompare (b.created_at.getD "") (a.created_at.getD "")

/-- Comparator of the `Oldest` sort. -/
def cmpOldest (rt : Runtime) (a b : Task) : Int :=
  rt.localeCompare (a.created_at.getD "") (b.created_at.getD "")

/-- The rank table `{ High: 3, Medium: 2, Low: 1 }` with 0 for every other priority and
for a missing one. -/
def rankOrZero (p : Option String) : Int :=
  if p = some "High" then 3
  else if p = some "Medium" then 2
  else if p = some "Low" then 1
  else 0

/-- The property names an object literal inherits from `Object.prototype`. -/
def inheritedKeys : List String :=
  ["constructor", "toString", "toLocaleString", "valueOf", "hasOwnProperty",
    "isPrototypeOf", "propertyIsEnumerable", "__proto__", "__defineGetter__",
    "__defineSetter__", "__lookupGetter__", "__lookupSetter__"]

/-- The priority is the name of an inherited member of the `rank` literal. -/
def inherited (p : Option String) : Bool :=
  match p with
  | some key => decide (key ∈ inheritedKeys)
  | none => false

/-- The operand `rank[p] || 0` of the comparator, as a number: the rank written in the
literal, 0 when the lookup finds nothing, and `none` (not a number) when it finds an
inherited member, which is a function or an object and stays as it is under `|| 0`. -/
def rank (p : Option String) : Option Int :=
  if inherited p then none else some (rankOrZero p)

/-- Comparator of the `Priority` sort, as `sort` reads it: the difference of the two
operands, and `+0` when the difference is NaN. -/
def cmpPriority (a b : Task) : Int :=
  match rank b.priority, rank a.priority with
  | some rb, some ra => rb - ra
  | _, _ => 0

/-- The sort step: the three `if (sortBy === ...)` blocks. -/
def sortStep (rt : Runtime) (sortBy : String) (list : List Task) : List Task :=
  let list := if sortBy = "Newest" then sort (cmpNewest rt) list else list
  let list := if sortBy = "Oldest" then sort (cmpOldest rt) list else list
  if sortBy = "Priority" then sort cmpPriority list else list

/-- The `filteredTasks` memo. -/
def filteredTasks (rt : Runtime) (tasks : List Task)
    (search statusFilter priorityFilter sortBy : String) : List Task :=
  sortStep rt sortBy
    (priorityStep priorityFilter (statusStep statusFilter (searchStep rt search tasks)))

/-! ### `filteredTasks` over array objects

`[...tasks]` and `filter` build a new array, `sort` reorders the array it is called
on.  The version below keeps the arrays in a heap so that what the memo does to the
store's own array can be stated. -/

/-- The array objects alive during a render, addressed by their index. -/
abbrev Heap := List (List Task)

/-- A new array object holding `xs`; its reference is returned with the heap. -/
def Heap.alloc (h : Heap) (xs : List Task) : Heap × Nat :=
  (h ++ [xs], h.length)

/-- The elements of the array object `ref`. -/
def Heap.read (h : Heap) (ref : Nat) : List Task :=
  h.getD ref []

/-- The call `list.sort(cmp)` on the array object `ref`: the object itself is reordered. -/
def Heap.sortAt (h : Heap) (ref : Nat) (cmp : Task → Task → Int) : Heap :=
  h.set ref (sort cmp (h.read ref))

/-- The search step on array objects: `filter` returns a new array, `list` is rebound. -/
def searchStepIn (rt : Runtime) (search : String) (s : Heap × Nat) : Heap × Nat :=
  if trim search ≠ "" then
    s.1.alloc ((s.1.read s.2).filter
      (fun t => includes (rt.toLowerCase (t.title.getD "")) (rt.toLowerCase search)))
  else s

/-- The status step on array objects. -/
def statusStepIn (statusFilter : String) (s : Heap × Nat) : Heap × Nat :=
  let s :=
    if statusFilter = "Completed" then s.1.alloc ((s.1.read s.2).filter (fun t => t.completed))
    else s
  if statusFilter = "Pending" then s.1.alloc ((s.1.read s.2).filter (fun t => !t.completed))
  else s

/-- The priority step on array objects. -/
def priorityStepIn (priorityFilter : String) (s : Heap × Nat) : Heap × Nat :=
  if priorityFilter ≠ "All" then
    s.1.alloc ((s.1.read s.2).filter (fun t => t.priority = some priorityFilter))
  else s

/-- The sort step on array objects: each `list.sort(...)` reorders the array `list`
is bound to. -/
def sortStepIn (rt : Runtime) (sortBy : String) (s : Heap × Nat) : Heap × Nat :=
  let h := if sortBy = "Newest" then s.1.sortAt s.2 (cmpNewest rt) else s.1
  let h := if sortBy = "Oldest" then h.sortAt s.2 (cmpOldest rt) else h
  let h := if sortBy = "Priority" then h.sortAt s.2 cmpPriority else h
  (h, s.2)

/-- The `filteredTasks` memo statement by statement, from `let list = [...tasks]` on;
`tasks` is the reference of the store's array, the result is the final heap and the
reference bound to `list`. -/
def filteredTasksIn (rt : Runtime) (h : Heap) (tasks : Nat)
    (search statusFilter priorityFilter sortBy : String) : Heap × Nat :=
  sortStepIn rt sortBy (priorityStepIn priorityFilter (statusStepIn statusFilter
    (searchStepIn rt search (h.alloc (h.read tasks)))))

/-- The binding `s` of `list` denotes `xs` and is an array made after the heap `h0`,
whose arrays are as they were. -/
def Heap.Holds (h0 : Heap) (s : Heap × Nat) (xs : List Task) : Prop :=
  h0.length ≤ s.2 ∧ s.2 < s.1.length ∧ s.1.read s.2 = xs ∧
    ∀ ref, ref < h0.length → s.1.read ref = h0.read ref

/-! ## Deadline status: `getDeadlineStatus` (App.js 281-297) -/

/-- The object `{ text, tone }` returned by `getDeadlineStatus`. -/
structure DeadlineStatus where
  text : String
  tone : String
deriving DecidableEq, Repr

/-- The template literal of the "Due Soon" text. -/
def dueSoonText (diffMin : Int) : String :=
  s!"Due Soon ({diffMin} min)"

/-- The function `getDeadlineStatus(task)`, with the instant `new Date()` read by the
source as the argument `now` and the locale's `toLocaleString` of a date as an
argument; `Math.floor(diffMs / 60000)` is floor division. -/
def getDeadlineStatus (now : Int) (toLocaleString : Int → String) (task : Task) :
    Option DeadlineStatus :=
  match task.deadline with
  | none => none
  | some d =>
    let diffMs := d - now
    let diffMin := Int.fdiv diffMs 60000
    if task.completed then some { text := "Completed", tone := "green" }
    else if diffMin < 0 then some { text := "Overdue", tone := "red" }
    else if diffMin ≤ 60 then some { text := dueSoonText diffMin, tone := "orange" }
    else some { text := toLocaleString d, tone := "blue" }

/-! ## Network calls and effects (api.js) -/

/-- The body of the create call built in `handleAddTask`. -/
structure TaskData where
  title : String
  priority : String
  completed : Bool
  deadline : Option String
  attachment : Option Attachment
deriving DecidableEq, Repr

/-- The four operations of `api.js`. -/
inductive Call where
  | getTasks
  | addTask (task : TaskData)
  | updateTask (id : Nat) (task : Task)
  | deleteTask (id : Nat)
deriving DecidableEq, Repr

/-- What a handler does that is visible outside it. -/
inductive Effect where
  | alert (msg : String)
  | confirm (msg : String)
  | call (c : Call)
  | consoleError (label : String)
  | prompt (msg : String) (value : Option String)
deriving DecidableEq, Repr

/-! ## Deadline reminder alerts (App.js 302-324) -/

/-- What a template literal prints for `t.title`. -/
def titleText (title : Option String) : String :=
  title.getD "undefined"

/-- Text of the 30-minute alert. -/
def reminder30 (title : Option String) : String :=
  "⏰ Reminder: \"" ++ titleText title ++ "\" deadline in 30 minutes!"

/-- Text of the 5-minute alert. -/
def hurry5 (title : Option String) : String :=
  "⚠️ Hurry! \"" ++ titleText title ++ "\" deadline in 5 minutes!"

/-- The body of `tasks.forEach((t) => ...)` in the interval callback: the alerts
raised for one task at the tick instant `now`, in the order they are raised. -/
def remindTask (now : Int) (t : Task) : List Effect :=
  match t.deadline with
  | none => []
  | some d =>
    if t.completed then []
    else
      let diffMin := Int.fdiv (d - now) 60000
      (if diffMin = 30 then [Effect.alert (reminder30 t.title)] else []) ++
      (if diffMin = 5 then [Effect.alert (hurry5 t.title)] else [])

/-- One tick of the interval callback: the alerts raised over the whole list. -/
def reminderTick (now : Int) (tasks : List Task) : List Effect :=
  tasks.flatMap (remindTask now)

/-! ## Bulk operations (App.js 29-36 and 137-173) -/

/-- The network calls among the effects, in the order they were issued. -/
def calls : List Effect → List Call
  | [] => []
  | Effect.call c :: es => c :: calls es
  | _ :: es => calls es

/-- The function `fetchTasks()`: the list call, and the logged error when it is
rejected (`resolves = false`). -/
def fetchTasks (resolves : Bool) : List Effect :=
  if resolves then [Effect.call Call.getTasks]
  else [Effect.call Call.getTasks, Effect.consoleError "Error fetching tasks:"]

/-- The loop `for (const t of list) { await call(t); }` inside a `try`: the calls are
issued one after the other, `net k` telling whether the call number `k` of the handler
(from 0) resolves; a rejected call ends the loop.  The result is the effects and
whether the loop ran to its end. -/
def awaitEach (net : Nat → Bool) : Nat → List Call → List Effect × Bool
  | _, [] => ([], true)
  | k, c :: rest =>
    if net k then
      let r := awaitEach net (k + 1) rest
      (Effect.call c :: r.1, r.2)
    else ([Effect.call c], false)

/-- The handler `clearCompleted()`; `ok` is the answer to `window.confirm`. -/
def clearCompleted (tasks : List Task) (ok : Bool) (net : Nat → Bool) : List Effect :=
  let completed := tasks.filter (fun t => t.completed)
  let n := completed.length
  if n = 0 then [Effect.alert "No completed tasks to clear."]
  else
    Effect.confirm s!"Clear {n} completed tasks?" ::
      if !ok then []
      else
        let r := awaitEach net 0 (completed.map (fun t => Call.deleteTask t.id))
        if r.2 then r.1 ++ fetchTasks (net n)
        else r.1 ++ [Effect.consoleError "Error clearing completed:"]

/-- The handler `markAll(value)`; `ok` is the answer to `window.confirm`. -/
def markAll (tasks : List Task) (value : Bool) (ok : Bool) (net : Nat → Bool) : List Effect :=
  let list := tasks.filter (fun t => t.completed != value)
  let n := list.length
  if n = 0 then []
  else
    Effect.confirm
        (if value then s!"Mark {n} tasks as completed?" else s!"Mark {n} tasks as pending?") ::
      if !ok then []
      else
        let r := awaitEach net 0
          (list.map (fun t => Call.updateTask t.id { t with completed := value }))
        if r.2 then r.1 ++ fetchTasks (net n)
        else r.1 ++ [Effect.consoleError "Error markAll:"]

/-! ## Single-task handlers (App.js 95-117) -/

/-- The handler `handleToggleComplete(task)`: the replace-call, then `fetchTasks()` when
it resolves (`net 0`), the logged error when it is rejected. -/
def handleToggleComplete (task : Task) (net : Nat → Bool) : List Effect :=
  Effect.call (Call.updateTask task.id { task with completed := !task.completed }) ::
    if net 0 then fetchTasks (net 1) else [Effect.consoleError "Error toggling:"]

/-- The handler `handleEditTask(task)`; `answer` is what `prompt` returns, `none` when the
dialog is cancelled.  The guard is `if (!newTitle || !newTitle.trim()) return;`. -/
def handleEditTask (task : Task) (answer : Option String) (net : Nat → Bool) : List Effect :=
  Effect.prompt "Edit task title:" task.title ::
    match answer with
    | none => []
    | some newTitle =>
      if newTitle = "" ∨ trim newTitle = "" then []
      else
        Effect.call (Call.updateTask task.id { task with title := some (trim newTitle) }) ::
          if net 0 then fetchTasks (net 1) else [Effect.consoleError "Error editing:"]

/-! ## Adding a task (App.js 8-14, 29-36 and 56-90) -/

/-- What the handler reads of the `File` held in the `file` state. -/
structure FileInput where
  name : String
  type : String
deriving DecidableEq, Repr

/-- The state of `App` the add handler reads and writes: the store and the create form. -/
structure AppState where
  tasks : List Task
  newTask : String
  priority : String
  file : Option FileInput
  deadline : String
deriving DecidableEq, Repr

/-- The state after `fetchTasks()`: `listed` is `none` when the list call is rejected,
otherwise the `res.data` of the response, itself absent or a list;
`setTasks(res.data || [])`. -/
def setTasksFrom (s : AppState) (listed : Option (Option (List Task))) : AppState :=
  match listed with
  | none => s
  | some data => { s with tasks := data.getD [] }

/-- The create call, the reset of the form and the refresh that follow the building of
`taskData` in `handleAddTask`; `added` tells whether the create call resolves. -/
def submitTask (s : AppState) (taskData : TaskData) (added : Bool)
    (listed : Option (Option (List Task))) : AppState × List Effect :=
  if added then
    (setTasksFrom { s with newTask := "", priority := "Medium", file := none, deadline := "" }
        listed,
      Effect.call (Call.addTask taskData) :: fetchTasks listed.isSome)
  else (s, [Effect.call (Call.addTask taskData), Effect.consoleError "Error adding task:"])

/-- The handler `handleAddTask()`: the state and the effects it leaves.  `read` is the
outcome of `fileToBase64(file)`, `none` when the reader fails. -/
def handleAddTask (s : AppState) (read : Option String) (added : Bool)
    (listed : Option (Option (List Task))) : AppState × List Effect :=
  if trim s.newTask = "" then (s, [Effect.alert "Please enter a task title!"])
  else
    let taskData : TaskData :=
      { title := trim s.newTask, priority := s.priority, completed := false,
        deadline := if s.deadline = "" then none else some s.deadline, attachment := none }
    match s.file with
    | none => submitTask s taskData added listed
    | some file =>
      match read with
      | none => (s, [Effect.consoleError "Error adding task:"])
      | some base64 =>
        submitTask s
          { taskData with
            attachment := some { name := file.name, type := file.type, data := base64 } }
          added listed

/-! ## Sample records -/

/-- A record with the given id and creation stamp, nothing else set. -/
def stamped (id : Nat) (created_at : Option String) : Task :=
  { id := id, title := none, priority := none, completed := false, deadline := none,
    created_at := created_at, attachment := none }

/-- Two records, the first without `created_at`, the second with the empty text. -/
def unstampedPair : List Task :=
  [stamped 1 none, stamped 2 (some "")]

/-- A pending record with a title only. -/
def titled (id : Nat) (title : String) : Task :=
  { id := id, title := some title, priority := none, completed := false, deadline := none,
    created_at := none, attachment := none }

/-- A pending record with a deadline only. -/
def due (id : Nat) (deadline : Int) : Task :=
  { id := id, title := none, priority := none, completed := false,
    deadline := some deadline, created_at := none, attachment := none }

/-- A stand-in for the locale's date formatting. -/
def plainDate (d : Int) : String :=
  toString d

/-- A record with the given id and completion flag, nothing else set. -/
def flagged (id : Nat) (completed : Bool) : Task :=
  { id := id, title := none, priority := none, completed := completed, deadline := none,
    created_at := none, attachment := none }

/-- A store of three tasks, the first and the last completed. -/
def twoOfThreeDone : List Task :=
  [flagged 1 true, flagged 2 false, flagged 3 true]

/-- Outcomes in which the call number 1 (the second call issued) is rejected. -/
def secondFails (k : Nat) : Bool :=
  k != 1

/-- A store of three tasks: pending, completed, pending with high priority. -/
def mixedStore : List Task :=
  [titled 1 "a", { titled 2 "b" with completed := true },
    { titled 3 "c" with priority := some "High" }]

/-- A create form whose title input holds blanks only, over the store `mixedStore`. -/
def blankForm : AppState :=
  { tasks := mixedStore, newTask := "  \t", priority := "High",
    file := some { name := "a.txt", type := "text/plain" }, deadline := "2024-05-01T10:00" }

/-- A record with the given id and priority, nothing else set. -/
def ranked (id : Nat) (priority : Option String) : Task :=
  { id := id, title := none, priority := priority, completed := false, deadline := none,
    created_at := none, attachment := none }

/-- Two records whose creation stamps differ by a final U+0000. -/
def nulPair : List Task :=
  [stamped 1 (some "2024-01-01"), stamped 2 (some "2024-01-01\x00")]

/-- A store of three completed tasks. -/
def threeDone : List Task :=
  [flagged 1 true, flagged 2 true, flagged 3 true]

/-- Three tasks: low priority, a priority named like an inherited member, high
priority. -/
def lowInheritedHigh : List Task :=
  [ranked 1 (some "Low"), ranked 2 (some "constructor"), ranked 3 (some "High")]

/-- Seven tasks, two of medium priority (ids 5 and 7) after a task whose priority is
named like an inherited member. -/
def sevenRanked : List Task :=
  [ranked 1 (some "High"), ranked 2 (some "High"), ranked 3 (some "Low"),
    ranked 4 (some "constructor"), ranked 5 (some "Medium"), ranked 6 (some "High"),
    ranked 7 (some "Medium")]

/-! ## Properties of `stats` -/

theorem length_filter_priority_add (tasks : List Task) :
    ((tasks.filter (fun t => t.priority = some "High")).length : Int)
      + (tasks.filter (fun t => t.priority = some "Medium")).length
      + (tasks.filter (fun t => t.priority = some "Low")).length
      + (tasks.filter (fun t => rankOrZero t.priority = 0)).length = tasks.length := by
  induction tasks with
  | nil => simp
  | cons t ts ih =>
    by_cases h1 : t.priority = some "High"
    · have hr : rankOrZero (some "High") ≠ 0 := by decide
      simp [List.filter_cons, h1, hr]; omega
    · by_cases h2 : t.priority = some "Medium"
      · have hr : rankOrZero (some "Medium") ≠ 0 := by decide
        simp [List.filter_cons, h2, hr]; omega
      · by_cases h3 : t.priority = some "Low"
        · have hr : rankOrZero (some "Low") ≠ 0 := by decide
          simp [List.filter_cons, h3, hr]; omega
        · have hr : rankOrZero t.priority = 0 := by simp [rankOrZero, h1, h2, h3]
          simp [List.filter_cons, h1, h2, h3, hr]; omega

/-- C1: for every task list, `stats` gives `completed + pending = total` and
`high + med + low ≤ total`; the three buckets add up to `total` exactly when every
task's priority is one of "High", "Medium", "Low" (in particular only then). -/
theorem stats_counts (tasks : List Task) :
    (stats tasks).completed + (stats tasks).pending = (stats tasks).total ∧
    (stats tasks).high + (stats tasks).med + (stats tasks).low ≤ (stats tasks).total ∧
    ((stats tasks).high + (stats tasks).med + (stats tasks).low = (stats tasks).total ↔
      ∀ t ∈ tasks, t.priority = some "High" ∨ t.priority = some "Medium" ∨
        t.priority = some "Low") := by
  have h := length_filter_priority_add tasks
  refine ⟨by simp [stats], ?_, ?_⟩
  · simp only [stats]; omega
  · simp only [stats]
    constructor
    · intro heq t ht
      have h0 : (tasks.filter (fun t => rankOrZero t.priority = 0)).length = 0 := by omega
      have hnil := List.length_eq_zero.mp h0
      have hnot : ¬ (rankOrZero t.priority = 0) := by
        intro hr
        have : t ∈ tasks.filter (fun t => rankOrZero t.priority = 0) := by
          simp [List.mem_filter, ht, hr]
        rw [hnil] at this
        exact List.not_mem_nil _ this
      by_contra hcon
      push_neg at hcon
      exact hnot (by simp [rankOrZero, hcon.1, hcon.2.1, hcon.2.2])
    · intro hall
      have h0 : tasks.filter (fun t => rankOrZero t.priority = 0) = [] := by
        rw [List.filter_eq_nil_iff]
        intro t ht
        rcases hall t ht with h1 | h1 | h1 <;> simp [rankOrZero, h1]
      rw [h0] at h
      simp at h
      omega

/-! ## Properties of the comparators -/

theorem codePointCompare_le_zero (a b : String) :
    codePointCompare a b ≤ 0 ↔ a.data ≤ b.data := by
  unfold codePointCompare
  split_ifs with h1 h2
  · simp [le_of_lt h1]
  · simp [not_le.mpr h2]
  · simp [not_lt.mp h2]

theorem codePointCompare_neg (a b : String) :
    codePointCompare a b < 0 ↔ a.data < b.data := by
  unfold codePointCompare
  split_ifs with h1 h2
  · simp [h1]
  · simp [h1]
  · simp [h1]

theorem codePointCompare_pos (a b : String) :
    0 < codePointCompare a b ↔ b.data < a.data := by
  unfold codePointCompare
  split_ifs with h1 h2
  · simp [not_lt.mpr (le_of_lt h1)]
  · simp [h2]
  · simp [h2]

/-- Comparison by code point is a consistent comparison. -/
theorem plainRuntime_collates : plainRuntime.Collates := by
  refine ⟨fun a b => ?_, fun a b c => ?_⟩
  · show codePointCompare a b < 0 ↔ 0 < codePointCompare b a
    rw [codePointCompare_neg, codePointCompare_pos]
  · show codePointCompare a b ≤ 0 → codePointCompare b c ≤ 0 → codePointCompare a c ≤ 0
    simp only [codePointCompare_le_zero]
    exact le_trans

/-- Comparison by code point after dropping U+0000 is a consistent comparison. -/
theorem nulBlindRuntime_collates : nulBlindRuntime.Collates := by
  refine ⟨fun a b => ?_, fun a b c => ?_⟩
  · show codePointCompare (dropNul a) (dropNul b) < 0 ↔
      0 < codePointCompare (dropNul b) (dropNul a)
    rw [codePointCompare_neg, codePointCompare_pos]
  · show codePointCompare (dropNul a) (dropNul b) ≤ 0 →
      codePointCompare (dropNul b) (dropNul c) ≤ 0 →
      codePointCompare (dropNul a) (dropNul c) ≤ 0
    simp only [codePointCompare_le_zero]
    exact le_trans

theorem plainRuntime_lowersAscii : plainRuntime.LowersAscii :=
  fun _ _ => rfl

/-- A consistent comparison gives 0 both ways or neither way. -/
theorem Runtime.Collates.zero_symm {rt : Runtime} (h : rt.Collates) (a b : String)
    (hab : rt.localeCompare a b ≠ 0) : rt.localeCompare b a ≠ 0 := by
  have h1 := h.1 a b
  have h2 := h.1 b a
  omega

theorem cmpNewest_total (rt : Runtime) (h : rt.Collates) :
    IsTotal Task (fun a b => cmpNewest rt a b ≤ 0) :=
  ⟨fun a b => by
    have h1 := h.1 (b.created_at.getD "") (a.created_at.getD "")
    simp only [cmpNewest]
    omega⟩

theorem cmpNewest_trans (rt : Runtime) (h : rt.Collates) :
    IsTrans Task (fun a b => cmpNewest rt a b ≤ 0) :=
  ⟨fun _ _ _ h1 h2 => h.2 _ _ _ h2 h1⟩

theorem cmpOldest_total (rt : Runtime) (h : rt.Collates) :
    IsTotal Task (fun a b => cmpOldest rt a b ≤ 0) :=
  ⟨fun a b => by
    have h1 := h.1 (a.created_at.getD "") (b.created_at.getD "")
    simp only [cmpOldest]
    omega⟩

theorem cmpOldest_trans (rt : Runtime) (h : rt.Collates) :
    IsTrans Task (fun a b => cmpOldest rt a b ≤ 0) :=
  ⟨fun _ _ _ h1 h2 => h.2 _ _ _ h1 h2⟩

instance rankOrZero_total :
    IsTotal Task (fun a b => rankOrZero b.priority - rankOrZero a.priority ≤ 0) :=
  ⟨fun a b => by omega⟩

instance rankOrZero_trans :
    IsTrans Task (fun a b => rankOrZero b.priority - rankOrZero a.priority ≤ 0) :=
  ⟨fun a b c => by omega⟩

/-- Between two priorities that are not names of inherited members the comparator is
the difference of the ranks. -/
theorem cmpPriority_of_own (a b : Task) (ha : inherited a.priority = false)
    (hb : inherited b.priority = false) :
    cmpPriority a b = rankOrZero b.priority - rankOrZero a.priority := by
  simp [cmpPriority, rank, ha, hb]

theorem sort_perm (cmp : Task → Task → Int) (l : List Task) : (sort cmp l).Perm l :=
  List.perm_insertionSort _ l

theorem orderedInsert_congr (r r' : Task → Task → Prop) [DecidableRel r] [DecidableRel r']
    (a : Task) (l : List Task) (h : ∀ b ∈ l, (r a b ↔ r' a b)) :
    l.orderedInsert r a = l.orderedInsert r' a := by
  induction l with
  | nil => rfl
  | cons b l ih =>
    have hb := h b (List.mem_cons_self _ _)
    have ih' := ih (fun c hc => h c (List.mem_cons_of_mem _ hc))
    by_cases hr : r a b
    · simp [List.orderedInsert, hr, hb.mp hr]
    · have hr' : ¬ r' a b := fun h' => hr (hb.mpr h')
      simp [List.orderedInsert, hr, hr', ih']

/-- Insertion sort depends on the relation between the elements of the list only. -/
theorem insertionSort_congr (r r' : Task → Task → Prop) [DecidableRel r] [DecidableRel r']
    (l : List Task) (h : ∀ a ∈ l, ∀ b ∈ l, (r a b ↔ r' a b)) :
    l.insertionSort r = l.insertionSort r' := by
  induction l with
  | nil => rfl
  | cons a l ih =>
    have ih' := ih (fun x hx y hy =>
      h x (List.mem_cons_of_mem _ hx) y (List.mem_cons_of_mem _ hy))
    rw [List.insertionSort, List.insertionSort, ih']
    apply orderedInsert_congr
    intro b hb
    have hb' : b ∈ l := (List.perm_insertionSort r' l).subset hb
    exact h a (List.mem_cons_self _ _) b (List.mem_cons_of_mem _ hb')

/-- On a list free of inherited names the `Priority` sort is the stable sort by
decreasing rank. -/
theorem sort_cmpPriority_of_own (l : List Task) (h : ∀ t ∈ l, inherited t.priority = false) :
    sort cmpPriority l =
      l.insertionSort (fun a b => rankOrZero b.priority - rankOrZero a.priority ≤ 0) := by
  unfold sort
  apply insertionSort_congr
  intro a ha b hb
  rw [cmpPriority_of_own a b (h a ha) (h b hb)]

/-! ## Properties of `filteredTasks` -/

theorem sortStep_priority (rt : Runtime) (l : List Task) :
    sortStep rt "Priority" l = sort cmpPriority l := by
  simp [sortStep]

theorem sortStep_newest (rt : Runtime) (l : List Task) :
    sortStep rt "Newest" l = sort (cmpNewest rt) l := by
  simp [sortStep]

theorem sortStep_oldest (rt : Runtime) (l : List Task) :
    sortStep rt "Oldest" l = sort (cmpOldest rt) l := by
  simp [sortStep]

theorem searchStep_sublist (rt : Runtime) (search : String) (l : List Task) :
    (searchStep rt search l).Sublist l := by
  unfold searchStep
  split_ifs
  · exact List.filter_sublist _
  · exact List.Sublist.refl _

theorem statusStep_sublist (statusFilter : String) (l : List Task) :
    (statusStep statusFilter l).Sublist l := by
  unfold statusStep
  split_ifs
  · exact (List.filter_sublist _).trans (List.filter_sublist _)
  · exact List.filter_sublist _
  · exact List.filter_sublist _
  · exact List.Sublist.refl _

theorem priorityStep_sublist (priorityFilter : String) (l : List Task) :
    (priorityStep priorityFilter l).Sublist l := by
  unfold priorityStep
  split_ifs
  · exact List.filter_sublist _
  · exact List.Sublist.refl _

/-- The three filter steps keep a sublist of the store, in store order. -/
theorem filterSteps_sublist (rt : Runtime) (tasks : List Task)
    (search statusFilter priorityFilter : String) :
    (priorityStep priorityFilter (statusStep statusFilter (searchStep rt search tasks))).Sublist
      tasks :=
  ((priorityStep_sublist _ _).trans (statusStep_sublist _ _)).trans (searchStep_sublist _ _ _)

/-- Where the `Priority` sort does what it is written for: when no priority of the list
is the name of an inherited member, the ranks (High 3, Medium 2, Low 1, anything else
or a missing priority 0) never increase along `filteredTasks`. -/
theorem filteredTasks_priority_sorted_of_own (rt : Runtime) (tasks : List Task)
    (search statusFilter priorityFilter : String)
    (hown : ∀ t ∈ tasks, inherited t.priority = false) :
    (filteredTasks rt tasks search statusFilter priorityFilter "Priority").Pairwise
      (fun a b => rankOrZero b.priority ≤ rankOrZero a.priority) := by
  unfold filteredTasks
  rw [sortStep_priority, sort_cmpPriority_of_own _
    (fun t ht => hown t ((filterSteps_sublist rt tasks search statusFilter priorityFilter).subset ht))]
  have h := List.sorted_insertionSort
    (fun a b : Task => rankOrZero b.priority - rankOrZero a.priority ≤ 0)
    (priorityStep priorityFilter (statusStep statusFilter (searchStep rt search tasks)))
  refine List.Pairwise.imp ?_ h
  intro a b hab
  omega

/-- C2, the code at the failing input: on a low task, a task whose priority is
"constructor" and a high task, in this order, the lookup `rank["constructor"]` finds the
inherited member, the comparator is NaN against it, and the `Priority` sort leaves the
three tasks where they are (in the stable order, and as V8 sorts them): the low task
stays before the high one, although the ranks claimed are 1, 0 and 3. -/
theorem filteredTasks_priority_inherited_key :
    rank (some "constructor") = none ∧
    cmpPriority (ranked 1 (some "Low")) (ranked 2 (some "constructor")) = 0 ∧
    cmpPriority (ranked 2 (some "constructor")) (ranked 3 (some "High")) = 0 ∧
    filteredTasks plainRuntime lowInheritedHigh "" "All" "All" "Priority" = lowInheritedHigh ∧
    sortShort cmpPriority lowInheritedHigh = lowInheritedHigh ∧
    ¬ (filteredTasks plainRuntime lowInheritedHigh "" "All" "All" "Priority").Pairwise
      (fun a b => rankOrZero b.priority ≤ rankOrZero a.priority) := by
  decide

theorem sort_newest_eq_reverse_sort_oldest (rt : Runtime) (hc : rt.Collates) (l : List Task)
    (hl : l.Pairwise (fun a b =>
      rt.localeCompare (a.created_at.getD "") (b.created_at.getD "") ≠ 0)) :
    sort (cmpNewest rt) l = (sort (cmpOldest rt) l).reverse := by
  haveI := cmpNewest_total rt hc
  haveI := cmpNewest_trans rt hc
  haveI := cmpOldest_total rt hc
  haveI := cmpOldest_trans rt hc
  have hN : (sort (cmpNewest rt) l).Pairwise (fun a b => cmpNewest rt a b ≤ 0) :=
    List.sorted_insertionSort (fun a b => cmpNewest rt a b ≤ 0) l
  have hO : (sort (cmpOldest rt) l).Pairwise (fun a b => cmpOldest rt a b ≤ 0) :=
    List.sorted_insertionSort (fun a b => cmpOldest rt a b ≤ 0) l
  have hR : (sort (cmpOldest rt) l).reverse.Pairwise (fun a b => cmpNewest rt a b ≤ 0) := by
    rw [List.pairwise_reverse]
    exact List.Pairwise.imp (fun hab => hab) hO
  have hperm : (sort (cmpNewest rt) l).Perm (sort (cmpOldest rt) l).reverse :=
    (sort_perm _ l).trans (((List.reverse_perm _).trans (sort_perm _ l)).symm)
  refine List.Perm.eq_of_sorted ?_ hN hR hperm
  intro a b ha hb hab hba
  have ha' : a ∈ l := (sort_perm _ l).subset ha
  have hb' : b ∈ l := (sort_perm _ l).subset (List.mem_reverse.mp hb)
  by_contra hne
  have hsymm : Symmetric (fun a b : Task =>
      rt.localeCompare (a.created_at.getD "") (b.created_at.getD "") ≠ 0) :=
    fun x y hxy => hc.zero_symm _ _ hxy
  have hnz := hl.forall hsymm ha' hb' hne
  have h1 := hc.1 (a.created_at.getD "") (b.created_at.getD "")
  simp only [cmpNewest] at hab hba
  omega

/-- C3, as the source has it: for a `localeCompare` that is a consistent comparison,
when no two tasks of the list have creation stamps that compare equal under it (a missing
`created_at` being read as the empty text), `filteredTasks` with `sortBy = "Newest"` is
the reverse of `filteredTasks` with `sortBy = "Oldest"`, for the same search, status and
priority selections. -/
theorem filteredTasks_newest_eq_reverse_oldest (rt : Runtime) (hc : rt.Collates)
    (tasks : List Task) (search statusFilter priorityFilter : String)
    (hdistinct : tasks.Pairwise (fun a b =>
      rt.localeCompare (a.created_at.getD "") (b.created_at.getD "") ≠ 0)) :
    filteredTasks rt tasks search statusFilter priorityFilter "Newest" =
      (filteredTasks rt tasks search statusFilter priorityFilter "Oldest").reverse := by
  unfold filteredTasks
  rw [sortStep_newest, sortStep_oldest]
  exact sort_newest_eq_reverse_sort_oldest rt hc _
    (hdistinct.sublist (filterSteps_sublist rt tasks search statusFilter priorityFilter))

/-- Instance of C3 (amended) on three stamped records given out of order, compared by
code point. -/
theorem filteredTasks_newest_eq_reverse_oldest_witness :
    plainRuntime.Collates ∧
    ([stamped 1 (some "2024-01-02"), stamped 2 none, stamped 3 (some "2024-01-01")].Pairwise
      (fun a b =>
        plainRuntime.localeCompare (a.created_at.getD "") (b.created_at.getD "") ≠ 0)) ∧
    filteredTasks plainRuntime
        [stamped 1 (some "2024-01-02"), stamped 2 none, stamped 3 (some "2024-01-01")]
        "" "All" "All" "Newest" =
      (filteredTasks plainRuntime
        [stamped 1 (some "2024-01-02"), stamped 2 none, stamped 3 (some "2024-01-01")]
        "" "All" "All" "Oldest").reverse :=
  ⟨plainRuntime_collates, by decide,
    filteredTasks_newest_eq_reverse_oldest plainRuntime plainRuntime_collates _
      "" "All" "All" (by decide)⟩

/-- C3 as stated fails.  The two records of `nulPair` have distinct `created_at` texts
that a collation giving U+0000 no weight compares equal; the two records of
`unstampedPair` have distinct `created_at` values (one missing, one the empty text) that
the comparators both read as the empty text.  In each case both sorts leave the list in
store order, and the `Newest` result is not the reverse of the `Oldest` result. -/
theorem filteredTasks_newest_oldest_counterexample :
    ((nulPair.map (fun t => t.created_at)).Nodup ∧
      filteredTasks nulBlindRuntime nulPair "" "All" "All" "Newest" = nulPair ∧
      filteredTasks nulBlindRuntime nulPair "" "All" "All" "Oldest" = nulPair ∧
      filteredTasks nulBlindRuntime nulPair "" "All" "All" "Newest" ≠
        (filteredTasks nulBlindRuntime nulPair "" "All" "All" "Oldest").reverse) ∧
    ((unstampedPair.map (fun t => t.created_at)).Nodup ∧
      filteredTasks plainRuntime unstampedPair "" "All" "All" "Newest" = unstampedPair ∧
      filteredTasks plainRuntime unstampedPair "" "All" "All" "Oldest" = unstampedPair ∧
      filteredTasks plainRuntime unstampedPair "" "All" "All" "Newest" ≠
        (filteredTasks plainRuntime unstampedPair "" "All" "All" "Oldest").reverse) := by
  decide

theorem includes_iff (s sub : String) :
    includes s sub = true ↔ ∃ pre post : String, s = pre ++ sub ++ post := by
  unfold includes
  rw [decide_eq_true_iff]
  constructor
  · rintro ⟨a, b, hab⟩
    refine ⟨⟨a⟩, ⟨b⟩, String.ext ?_⟩
    simp [String.data_append, hab]
  · rintro ⟨pre, post, h⟩
    refine ⟨pre.data, post.data, ?_⟩
    rw [h]
    simp [String.data_append]

theorem searchStep_kept_of_includes (rt : Runtime) (search : String) (t : Task)
    (htrim : trim search ≠ "")
    (h : includes (rt.toLowerCase (t.title.getD "")) (rt.toLowerCase search) = true) :
    searchStep rt search [t] = [t] := by
  simp [searchStep, htrim, h]

/-- C4, as the source has it: whatever `toLowerCase` does, the text step of
`filteredTasks` keeps a task exactly when the search text is empty once trimmed (in
particular when it is empty) or the search text lower-cased by `toLowerCase` occurs as a
contiguous run in the title lower-cased by `toLowerCase`, a missing title being read as
the empty text; it keeps the whole list for the empty search; and, `toLowerCase` mapping
the ASCII letters as every engine does, it keeps a task titled "Finish Report" for
the searches "finish", "REPORT" and "sh rep". -/
theorem searchStep_keeps_iff (rt : Runtime) :
    (∀ (search : String) (list : List Task) (t : Task),
      t ∈ searchStep rt search list ↔
        t ∈ list ∧ (trim search = "" ∨
          ∃ pre post : String,
            rt.toLowerCase (t.title.getD "") = pre ++ rt.toLowerCase search ++ post)) ∧
    (∀ list : List Task, searchStep rt "" list = list) ∧
    (rt.LowersAscii →
      searchStep rt "finish" [titled 1 "Finish Report"] = [titled 1 "Finish Report"] ∧
      searchStep rt "REPORT" [titled 1 "Finish Report"] = [titled 1 "Finish Report"] ∧
      searchStep rt "sh rep" [titled 1 "Finish Report"] = [titled 1 "Finish Report"]) := by
  refine ⟨?_, ?_, ?_⟩
  · intro search list t
    unfold searchStep
    split_ifs with h
    · rw [List.mem_filter, includes_iff]
      constructor
      · rintro ⟨h1, h2⟩
        exact ⟨h1, Or.inr h2⟩
      · rintro ⟨h1, h2 | h2⟩
        · exact absurd h2 h
        · exact ⟨h1, h2⟩
    · simp only [ne_eq, not_not] at h
      simp [h]
  · intro list
    have h : trim "" = "" := by decide
    simp [searchStep, h]
  · intro hascii
    have ht : rt.toLowerCase ((titled 1 "Finish Report").title.getD "") =
        asciiLower "Finish Report" := hascii "Finish Report" (by decide)
    refine ⟨?_, ?_, ?_⟩
    · apply searchStep_kept_of_includes rt _ _ (by decide)
      rw [ht, hascii "finish" (by decide)]
      decide
    · apply searchStep_kept_of_includes rt _ _ (by decide)
      rw [ht, hascii "REPORT" (by decide)]
      decide
    · apply searchStep_kept_of_includes rt _ _ (by decide)
      rw [ht, hascii "sh rep" (by decide)]
      decide

/-- Instance of C4 (amended) with the ASCII lower-casing. -/
theorem searchStep_keeps_iff_witness :
    plainRuntime.LowersAscii ∧
    searchStep plainRuntime "finish" [titled 1 "Finish Report"] = [titled 1 "Finish Report"] ∧
    searchStep plainRuntime "REPORT" [titled 1 "Finish Report"] = [titled 1 "Finish Report"] ∧
    searchStep plainRuntime "sh rep" [titled 1 "Finish Report"] = [titled 1 "Finish Report"] :=
  ⟨plainRuntime_lowersAscii, (searchStep_keeps_iff plainRuntime).2.2 plainRuntime_lowersAscii⟩

/-- C4 as stated fails: for the search text of one blank the text step keeps the task
titled "abc", although a blank does not occur in "abc" (both are ASCII texts, which
lower-casing leaves as they are). -/
theorem searchStep_blank_counterexample :
    titled 1 "abc" ∈ searchStep plainRuntime " " [titled 1 "abc"] ∧
    includes (plainRuntime.toLowerCase "abc") (plainRuntime.toLowerCase " ") = false := by
  decide

/-! ### The memo on array objects -/

theorem Heap.holds_alloc_self (h0 : Heap) (xs : List Task) : Heap.Holds h0 (h0.alloc xs) xs := by
  refine ⟨le_refl _, by simp [Heap.alloc], ?_, fun ref hr => ?_⟩
  · simp [Heap.alloc, Heap.read, List.getD_append_right]
  · simp only [Heap.alloc, Heap.read]
    exact List.getD_append _ _ _ _ hr

theorem Heap.holds_alloc {h0 : Heap} {s : Heap × Nat} {xs : List Task}
    (hs : Heap.Holds h0 s xs) (ys : List Task) : Heap.Holds h0 (s.1.alloc ys) ys := by
  obtain ⟨h1, h2, _, h4⟩ := hs
  refine ⟨by simp only [Heap.alloc]; omega, by simp [Heap.alloc], ?_, fun ref hr => ?_⟩
  · simp [Heap.alloc, Heap.read, List.getD_append_right]
  · rw [← h4 ref hr]
    simp only [Heap.alloc, Heap.read]
    exact List.getD_append _ _ _ _ (by omega)

theorem Heap.holds_sortAt {h0 : Heap} {s : Heap × Nat} {xs : List Task}
    (hs : Heap.Holds h0 s xs) (cmp : Task → Task → Int) :
    Heap.Holds h0 (s.1.sortAt s.2 cmp, s.2) (sort cmp xs) := by
  obtain ⟨h1, h2, h3, h4⟩ := hs
  refine ⟨h1, by simpa [Heap.sortAt] using h2, ?_, fun ref hr => ?_⟩
  · simp only [Heap.sortAt, Heap.read, List.getD_eq_getElem?_getD, List.getElem?_set] at h3 ⊢
    simp only [if_true, if_pos h2, Option.getD_some, h3]
  · rw [← h4 ref hr]
    simp only [Heap.sortAt, Heap.read, List.getD_eq_getElem?_getD, List.getElem?_set]
    have hne : s.2 ≠ ref := by omega
    simp [hne]

theorem searchStepIn_holds {h0 : Heap} {s : Heap × Nat} {xs : List Task}
    (hs : Heap.Holds h0 s xs) (rt : Runtime) (search : String) :
    Heap.Holds h0 (searchStepIn rt search s) (searchStep rt search xs) := by
  unfold searchStepIn searchStep
  split_ifs
  · rw [hs.2.2.1]
    exact Heap.holds_alloc hs _
  · exact hs

theorem statusStepIn_holds {h0 : Heap} {s : Heap × Nat} {xs : List Task}
    (hs : Heap.Holds h0 s xs) (statusFilter : String) :
    Heap.Holds h0 (statusStepIn statusFilter s) (statusStep statusFilter xs) := by
  unfold statusStepIn statusStep
  by_cases hc : statusFilter = "Completed"
  · have hp : ¬ statusFilter = "Pending" := by rw [hc]; decide
    simp only [hc, if_true]
    rw [if_neg (by decide), if_neg (by decide), hs.2.2.1]
    exact Heap.holds_alloc hs _
  · simp only [hc, if_false]
    split_ifs
    · rw [hs.2.2.1]
      exact Heap.holds_alloc hs _
    · exact hs

theorem priorityStepIn_holds {h0 : Heap} {s : Heap × Nat} {xs : List Task}
    (hs : Heap.Holds h0 s xs) (priorityFilter : String) :
    Heap.Holds h0 (priorityStepIn priorityFilter s) (priorityStep priorityFilter xs) := by
  unfold priorityStepIn priorityStep
  split_ifs
  · rw [hs.2.2.1]
    exact Heap.holds_alloc hs _
  · exact hs

theorem sortStepIn_holds {h0 : Heap} {s : Heap × Nat} {xs : List Task}
    (hs : Heap.Holds h0 s xs) (rt : Runtime) (sortBy : String) :
    Heap.Holds h0 (sortStepIn rt sortBy s) (sortStep rt sortBy xs) := by
  unfold sortStepIn sortStep
  by_cases hn : sortBy = "Newest"
  · subst hn
    simpa using Heap.holds_sortAt hs (cmpNewest rt)
  · by_cases ho : sortBy = "Oldest"
    · subst ho
      simpa using Heap.holds_sortAt hs (cmpOldest rt)
    · by_cases hp : sortBy = "Priority"
      · subst hp
        simpa using Heap.holds_sortAt hs cmpPriority
      · simpa [hn, ho, hp] using hs

/-- The memo on array objects computes `filteredTasks` of the store's array in an array
of its own, and leaves every array that existed before as it was. -/
theorem filteredTasksIn_holds (rt : Runtime) (h : Heap) (tasks : Nat)
    (search statusFilter priorityFilter sortBy : String) :
    Heap.Holds h (filteredTasksIn rt h tasks search statusFilter priorityFilter sortBy)
      (filteredTasks rt (h.read tasks) search statusFilter priorityFilter sortBy) :=
  sortStepIn_holds (priorityStepIn_holds (statusStepIn_holds
    (searchStepIn_holds (Heap.holds_alloc_self h (h.read tasks)) rt search) statusFilter)
    priorityFilter) rt sortBy

theorem sortStep_perm (rt : Runtime) (sortBy : String) (l : List Task) :
    (sortStep rt sortBy l).Perm l := by
  unfold sortStep
  split_ifs
  all_goals
    first
      | exact List.Perm.refl _
      | exact sort_perm _ _
      | exact (sort_perm _ _).trans (sort_perm _ _)
      | exact (sort_perm _ _).trans ((sort_perm _ _).trans (sort_perm _ _))

theorem searchStep_empty (rt : Runtime) (l : List Task) : searchStep rt "" l = l := by
  have h : trim "" = "" := by decide
  simp [searchStep, h]

theorem filterSteps_eq_filter (rt : Runtime) (tasks : List Task)
    (statusFilter priorityFilter : String) :
    priorityStep priorityFilter (statusStep statusFilter (searchStep rt "" tasks)) =
      tasks.filter (fun t => decide
        ((statusFilter = "Completed" → t.completed = true) ∧
         (statusFilter = "Pending" → t.completed = false) ∧
         (priorityFilter ≠ "All" → t.priority = some priorityFilter))) := by
  rw [searchStep_empty]
  unfold priorityStep statusStep
  by_cases hc : statusFilter = "Completed"
  · have hp : ¬ statusFilter = "Pending" := by rw [hc]; decide
    by_cases ha : priorityFilter = "All"
    · simp [hc, ha]
    · simp [hc, ha, List.filter_filter, Bool.and_comm]
  · by_cases hp : statusFilter = "Pending"
    · by_cases ha : priorityFilter = "All"
      · simp [hp, ha]
      · simp [hp, ha, List.filter_filter, Bool.and_comm]
    · by_cases ha : priorityFilter = "All"
      · simp [hc, hp, ha]
      · simp [hc, hp, ha]

/-- C5: with an empty search, whatever the status filter, priority filter and sort key,
and whatever the engine's `toLowerCase` and `localeCompare` are, `filteredTasks` is a
permutation of the tasks of the store that pass both filters (`Completed` keeps
`completed = true`, `Pending` keeps `completed = false`, a priority filter other than
`All` keeps the tasks whose priority equals it), so the sort adds, drops and duplicates
nothing; run on array objects, the memo returns that list in an array of its own and the
store's array is left as it was. -/
theorem filteredTasks_perm_passing (rt : Runtime)
    (statusFilter priorityFilter sortBy : String) :
    (∀ tasks : List Task,
      (filteredTasks rt tasks "" statusFilter priorityFilter sortBy).Perm
        (tasks.filter (fun t => decide
          ((statusFilter = "Completed" → t.completed = true) ∧
           (statusFilter = "Pending" → t.completed = false) ∧
           (priorityFilter ≠ "All" → t.priority = some priorityFilter))))) ∧
    (∀ (h : Heap) (store : Nat), store < h.length →
      (filteredTasksIn rt h store "" statusFilter priorityFilter sortBy).1.read
          (filteredTasksIn rt h store "" statusFilter priorityFilter sortBy).2 =
        filteredTasks rt (h.read store) "" statusFilter priorityFilter sortBy ∧
      (filteredTasksIn rt h store "" statusFilter priorityFilter sortBy).1.read store =
        h.read store) := by
  constructor
  · intro tasks
    unfold filteredTasks
    rw [← filterSteps_eq_filter rt]
    exact sortStep_perm _ _ _
  · intro h store hstore
    have hh := filteredTasksIn_holds rt h store "" statusFilter priorityFilter sortBy
    exact ⟨hh.2.2.1, hh.2.2.2 store hstore⟩

/-- Instance of C5 on the store `mixedStore` held in the array object 0, with the
`Pending` filter and the `Priority` sort: the result holds the two pending tasks, the
high-priority one first, and the store's array is as before. -/
theorem filteredTasks_perm_passing_witness :
    (0 < List.length [mixedStore]) ∧
    (filteredTasksIn plainRuntime [mixedStore] 0 "" "Pending" "All" "Priority").1.read
        (filteredTasksIn plainRuntime [mixedStore] 0 "" "Pending" "All" "Priority").2 =
      [{ titled 3 "c" with priority := some "High" }, titled 1 "a"] ∧
    (filteredTasksIn plainRuntime [mixedStore] 0 "" "Pending" "All" "Priority").1.read 0 =
      mixedStore :=
  ⟨by decide,
    (((filteredTasks_perm_passing plainRuntime "Pending" "All" "Priority").2 [mixedStore] 0
      (by decide)).1).trans (by decide),
    ((filteredTasks_perm_passing plainRuntime "Pending" "All" "Priority").2 [mixedStore] 0
      (by decide)).2⟩

/-! ## Properties of `getDeadlineStatus` and of the reminder scan -/

/-- The floor division of the embedding is `Math.floor` of the exact quotient. -/
theorem fdiv_eq_floor (x : Int) : Int.fdiv x 60000 = ⌊(x : ℚ) / 60000⌋ := by
  rw [Int.fdiv_eq_ediv _ (by norm_num)]
  have h := Rat.floor_intCast_div_natCast x 60000
  simpa using h.symm

theorem fdiv_eq_ediv_minute (x : Int) : Int.fdiv x 60000 = x / 60000 :=
  Int.fdiv_eq_ediv _ (by norm_num)

/-- C6: for a task with a deadline `d` and any instant `now`, `getDeadlineStatus`
returns "Completed" when the task is completed, whatever `d` is; when the task is not
completed it returns "Overdue" exactly when `d` is strictly earlier than `now` (so not
when `d = now`). -/
theorem getDeadlineStatus_completed_or_overdue (now d : Int) (fmt : Int → String)
    (task : Task) (hd : task.deadline = some d) :
    (task.completed = true →
      getDeadlineStatus now fmt task = some { text := "Completed", tone := "green" }) ∧
    (task.completed = false →
      (getDeadlineStatus now fmt task = some { text := "Overdue", tone := "red" } ↔ d < now)) := by
  constructor
  · intro hc
    simp [getDeadlineStatus, hd, hc]
  · intro hc
    simp only [getDeadlineStatus, hd, hc, fdiv_eq_ediv_minute]
    by_cases h1 : (d - now) / 60000 < 0
    · have h2 : d < now := by omega
      simp [h1, h2]
    · have h2 : ¬ d < now := by omega
      by_cases h3 : (d - now) / 60000 ≤ 60
      · simp [h1, h2, h3]
      · simp [h1, h2, h3]

/-- Instance of C6: not completed, deadline 10 minutes before `now`, gives "Overdue";
completed with the same past deadline gives "Completed". -/
theorem getDeadlineStatus_completed_or_overdue_witness :
    (due 1 400000).deadline = some 400000 ∧
    getDeadlineStatus 1000000 plainDate (due 1 400000) =
      some { text := "Overdue", tone := "red" } ∧
    getDeadlineStatus 1000000 plainDate { due 1 400000 with completed := true } =
      some { text := "Completed", tone := "green" } :=
  ⟨rfl,
    ((getDeadlineStatus_completed_or_overdue 1000000 400000 plainDate (due 1 400000) rfl).2
      rfl).mpr (by decide),
    by decide⟩

/-- C7, as the source has it: for a task that is not completed and whose deadline `d`
is not before `now`, with `m` the whole minutes remaining (the floor of
`(d - now) / 60000`), `getDeadlineStatus` returns "Due Soon (m min)" exactly when
`m ≤ 60`, that is when `d - now` is less than 61 minutes; from 61 minutes on it returns
the formatted deadline. -/
theorem getDeadlineStatus_dueSoon_iff (now d : Int) (fmt : Int → String) (task : Task)
    (hd : task.deadline = some d) (hc : task.completed = false) (hnow : now ≤ d) :
    (getDeadlineStatus now fmt task =
        some { text := dueSoonText ⌊((d - now : Int) : ℚ) / 60000⌋, tone := "orange" } ↔
      ⌊((d - now : Int) : ℚ) / 60000⌋ ≤ 60) ∧
    (⌊((d - now : Int) : ℚ) / 60000⌋ ≤ 60 ↔ d - now < 61 * 60000) ∧
    (61 * 60000 ≤ d - now →
      getDeadlineStatus now fmt task = some { text := fmt d, tone := "blue" }) := by
  rw [← fdiv_eq_floor]
  simp only [getDeadlineStatus, hd, hc, fdiv_eq_ediv_minute]
  have h1 : ¬ (d - now) / 60000 < 0 := by omega
  refine ⟨?_, by omega, ?_⟩
  · by_cases h3 : (d - now) / 60000 ≤ 60
    · simp [h1, h3]
    · simp [h1, h3]
  · intro h
    have h3 : ¬ (d - now) / 60000 ≤ 60 := by omega
    simp [h1, h3]

/-- Instance of C7 (amended): a deadline 45 minutes after `now` gives
"Due Soon (45 min)". -/
theorem getDeadlineStatus_dueSoon_iff_witness :
    (due 1 3700000).deadline = some 3700000 ∧ (due 1 3700000).completed = false ∧
    (1000000 : Int) ≤ 3700000 ∧
    getDeadlineStatus 1000000 plainDate (due 1 3700000) =
      some { text := "Due Soon (45 min)", tone := "orange" } :=
  ⟨rfl, rfl, by decide, by
    have h := (getDeadlineStatus_dueSoon_iff 1000000 3700000 plainDate (due 1 3700000)
      rfl rfl (by decide)).1
    rw [← fdiv_eq_floor] at h
    exact (h.mpr (by decide)).trans (by decide)⟩

/-- C7 as stated fails: a deadline 60 minutes and one millisecond after `now` is more
than 60 minutes away, and `getDeadlineStatus` still returns "Due Soon (60 min)". -/
theorem getDeadlineStatus_dueSoon_counterexample :
    ¬ ((3600001 : Int) - 0 ≤ 60 * 60000) ∧
    getDeadlineStatus 0 plainDate (due 1 3600001) =
      some { text := "Due Soon (60 min)", tone := "orange" } := by
  decide

/-- The two alert texts are never the same text. -/
theorem reminder30_ne_hurry5 (a b : Option String) : reminder30 a ≠ hurry5 b := by
  intro h
  have h2 := congrArg String.data h
  simp [reminder30, hurry5, String.data_append] at h2

/-- C8: at a tick instant `now`, the scan raises for a task that has a deadline `d` and
is not completed exactly the 30-minute alert when the floor of `(d - now) / 60000` is
30, exactly the 5-minute alert when it is 5, and nothing for any other value; it raises
nothing for a completed task and nothing for a task without a deadline; the scan of the
list is the scans of its tasks one after the other, and the 30-minute text is never a
5-minute text. -/
theorem remindTask_exact (now : Int) (t : Task) :
    (∀ d : Int, t.deadline = some d → t.completed = false →
      (⌊((d - now : Int) : ℚ) / 60000⌋ = 30 → remindTask now t = [Effect.alert (reminder30 t.title)]) ∧
      (⌊((d - now : Int) : ℚ) / 60000⌋ = 5 → remindTask now t = [Effect.alert (hurry5 t.title)]) ∧
      (⌊((d - now : Int) : ℚ) / 60000⌋ ≠ 30 → ⌊((d - now : Int) : ℚ) / 60000⌋ ≠ 5 →
        remindTask now t = [])) ∧
    (t.completed = true → remindTask now t = []) ∧
    (t.deadline = none → remindTask now t = []) ∧
    (∀ a b : Option String, reminder30 a ≠ hurry5 b) ∧
    (∀ ts : List Task, reminderTick now (t :: ts) = remindTask now t ++ reminderTick now ts) ∧
    reminderTick now [] = [] := by
  refine ⟨?_, ?_, ?_, reminder30_ne_hurry5, ?_, rfl⟩
  · intro d hd hc
    rw [← fdiv_eq_floor]
    simp only [remindTask, hd, hc]
    refine ⟨?_, ?_, ?_⟩
    · intro h
      simp [h]
    · intro h
      simp [h]
    · intro h30 h5
      simp [h30, h5]
  · intro hc
    cases hd : t.deadline <;> simp [remindTask, hd, hc]
  · intro hd
    simp [remindTask, hd]
  · intro ts
    simp [reminderTick, List.flatMap_cons]

/-- Instance of C8: a pending task due 30 minutes and 59 seconds after the tick gets
the 30-minute alert alone, one due 5 minutes after gets the 5-minute alert alone. -/
theorem remindTask_exact_witness :
    (due 1 1859000).deadline = some 1859000 ∧ (due 1 1859000).completed = false ∧
    ⌊(((1859000 : Int) - 0 : Int) : ℚ) / 60000⌋ = 30 ∧
    remindTask 0 (due 1 1859000) = [Effect.alert (reminder30 none)] ∧
    reminderTick 0 [due 1 1859000, due 2 300000, due 3 0] =
      [Effect.alert (reminder30 none), Effect.alert (hurry5 none)] :=
  ⟨rfl, rfl, by rw [← fdiv_eq_floor]; decide,
    ((remindTask_exact 0 (due 1 1859000)).1 1859000 rfl rfl).1
      (by rw [← fdiv_eq_floor]; decide),
    by decide⟩

/-! ## Properties of the bulk operations -/

theorem calls_append (es fs : List Effect) : calls (es ++ fs) = calls es ++ calls fs := by
  induction es with
  | nil => rfl
  | cons e es ih => cases e <;> simp [calls, ih]

theorem calls_map_call (cs : List Call) : calls (cs.map Effect.call) = cs := by
  induction cs with
  | nil => rfl
  | cons c cs ih => simp [calls, ih]

theorem calls_map_comp {α : Type} (f : α → Call) (l : List α) :
    calls (l.map (Effect.call ∘ f)) = l.map f := by
  rw [← List.map_map, calls_map_call]

theorem calls_take_map_comp {α : Type} (n : Nat) (f : α → Call) (l : List α) :
    calls ((l.map (Effect.call ∘ f)).take n) = (l.map f).take n := by
  rw [← List.map_map, ← List.map_take, calls_map_call]

/-- When every call resolves the loop issues all the calls, in order, and ends. -/
theorem awaitEach_all_resolve (k : Nat) (cs : List Call) :
    awaitEach (fun _ => true) k cs = (cs.map Effect.call, true) := by
  induction cs generalizing k with
  | nil => rfl
  | cons c cs ih => simp [awaitEach, ih]

/-- When the calls before position `j` resolve and the call at position `j` is rejected,
the loop issues the first `j + 1` calls and stops. -/
theorem awaitEach_reject (net : Nat → Bool) (k j : Nat) (cs : List Call)
    (hj : j < cs.length) (hprev : ∀ i, i < j → net (k + i) = true)
    (hfail : net (k + j) = false) :
    awaitEach net k cs = ((cs.take (j + 1)).map Effect.call, false) := by
  induction cs generalizing k j with
  | nil => simp at hj
  | cons c cs ih =>
    cases j with
    | zero =>
      have h0 : net k = false := by simpa using hfail
      simp [awaitEach, h0]
    | succ j =>
      have h0 : net k = true := by simpa using hprev 0 (Nat.succ_pos j)
      have hj' : j < cs.length := by simpa using hj
      have hprev' : ∀ i, i < j → net (k + 1 + i) = true := by
        intro i hi
        have := hprev (i + 1) (by omega)
        rwa [show k + (i + 1) = k + 1 + i by omega] at this
      have hfail' : net (k + 1 + j) = false := by
        rwa [show k + (j + 1) = k + 1 + j by omega] at hfail
      simp [awaitEach, h0, ih (k + 1) j hj' hprev' hfail']

/-- C9: when the user confirms and every call resolves, `markAll(value)` issues one
replace-call per task whose `completed` differs from `value`, in store order, each
addressed to the task's id and carrying the task's record with `completed` set to
`value` and the other fields as they were, then one list call, and no other call; when
no task differs it has no effect at all (no call, no confirmation), whatever the
answers would be. -/
theorem markAll_calls_when_all_resolve (tasks : List Task) (value : Bool) :
    (tasks.filter (fun t => t.completed != value) ≠ [] →
      calls (markAll tasks value true (fun _ => true)) =
        (tasks.filter (fun t => t.completed != value)).map
            (fun t => Call.updateTask t.id
              { id := t.id, title := t.title, priority := t.priority, completed := value,
                deadline := t.deadline, created_at := t.created_at,
                attachment := t.attachment }) ++
          [Call.getTasks]) ∧
    (tasks.filter (fun t => t.completed != value) = [] →
      ∀ (ok : Bool) (net : Nat → Bool), markAll tasks value ok net = []) := by
  constructor
  · intro hne
    have hlen : (tasks.filter (fun t => t.completed != value)).length ≠ 0 := by
      simpa [List.length_eq_zero] using hne
    simp only [markAll, if_neg hlen, awaitEach_all_resolve, fetchTasks]
    simp [calls, calls_append, calls_map_comp]
  · intro hnil ok net
    simp [markAll, hnil]

/-- Instance of C9: `markAll(true)` on three tasks of which two are completed issues one
replace-call, for the pending task, then one list call. -/
theorem markAll_calls_when_all_resolve_witness :
    twoOfThreeDone.filter (fun t => t.completed != true) ≠ [] ∧
    calls (markAll twoOfThreeDone true true (fun _ => true)) =
      [Call.updateTask 2 (flagged 2 true), Call.getTasks] :=
  ⟨by decide,
    ((markAll_calls_when_all_resolve twoOfThreeDone true).1 (by decide)).trans (by decide)⟩

/-- C10: in `markAll` and in `clearCompleted`, once the user has confirmed, if the calls
for the items before item `N` of the snapshot resolve and the call for item `N` is
rejected, the calls issued are exactly those for the items 1 to `N`, in snapshot order:
no call is issued for a later item, and no further call of any kind follows, so nothing
undoes what the first `N - 1` calls did. -/
theorem bulk_calls_when_item_rejected (tasks : List Task) (value : Bool) (net : Nat → Bool)
    (N : Nat) (hN : 1 ≤ N) (hprev : ∀ i, i < N - 1 → net i = true)
    (hfail : net (N - 1) = false) :
    (N ≤ (tasks.filter (fun t => t.completed != value)).length →
      calls (markAll tasks value true net) =
        ((tasks.filter (fun t => t.completed != value)).take N).map
          (fun t => Call.updateTask t.id { t with completed := value })) ∧
    (N ≤ (tasks.filter (fun t => t.completed)).length →
      calls (clearCompleted tasks true net) =
        ((tasks.filter (fun t => t.completed)).take N).map
          (fun t => Call.deleteTask t.id)) := by
  obtain ⟨j, rfl⟩ : ∃ j, N = j + 1 := ⟨N - 1, by omega⟩
  have hprev' : ∀ i, i < j → net (0 + i) = true := by
    intro i hi
    simpa using hprev i (by simpa using hi)
  have hfail' : net (0 + j) = false := by simpa using hfail
  constructor
  · intro hle
    have hlen : (tasks.filter (fun t => t.completed != value)).length ≠ 0 := by omega
    have hloop := awaitEach_reject net 0 j
      ((tasks.filter (fun t => t.completed != value)).map
        (fun t => Call.updateTask t.id { t with completed := value }))
      (by simpa using hle) hprev' hfail'
    simp only [markAll, if_neg hlen, hloop]
    simp [calls, calls_append, calls_take_map_comp]
  · intro hle
    have hlen : (tasks.filter (fun t => t.completed)).length ≠ 0 := by omega
    have hloop := awaitEach_reject net 0 j
      ((tasks.filter (fun t => t.completed)).map (fun t => Call.deleteTask t.id))
      (by simpa using hle) hprev' hfail'
    simp only [clearCompleted, if_neg hlen, hloop]
    simp [calls, calls_append, calls_take_map_comp]

/-- Instance of C10: on a store of three completed tasks, with the second call rejected
(`N = 2` of `n = 3`), `markAll(false)` and `clearCompleted` issue the calls for the
first two tasks and nothing else: no call is issued for the third task. -/
theorem bulk_calls_when_item_rejected_witness :
    (1 ≤ 2) ∧ (∀ i, i < 2 - 1 → secondFails i = true) ∧ secondFails (2 - 1) = false ∧
    (threeDone.filter (fun t => t.completed != false)).length = 3 ∧
    (threeDone.filter (fun t => t.completed)).length = 3 ∧
    calls (markAll threeDone false true secondFails) =
      [Call.updateTask 1 (flagged 1 false), Call.updateTask 2 (flagged 2 false)] ∧
    calls (clearCompleted threeDone true secondFails) =
      [Call.deleteTask 1, Call.deleteTask 2] :=
  ⟨by decide, by decide, by decide, by decide, by decide,
    ((bulk_calls_when_item_rejected threeDone false secondFails 2 (by decide)
      (by decide) (by decide)).1 (by decide)).trans (by decide),
    ((bulk_calls_when_item_rejected threeDone false secondFails 2 (by decide)
      (by decide) (by decide)).2 (by decide)).trans (by decide)⟩

theorem awaitEach_resolve (net : Nat → Bool) (k : Nat) (cs : List Call)
    (h : ∀ i, i < cs.length → net (k + i) = true) :
    awaitEach net k cs = (cs.map Effect.call, true) := by
  induction cs generalizing k with
  | nil => rfl
  | cons c cs ih =>
    have h0 : net k = true := by simpa using h 0 (by simp)
    have h' : ∀ i, i < cs.length → net (k + 1 + i) = true := by
      intro i hi
      have := h (i + 1) (by simpa using hi)
      rwa [show k + (i + 1) = k + 1 + i by omega] at this
    simp [awaitEach, h0, ih (k + 1) h']

theorem awaitEach_stops (net : Nat → Bool) (k : Nat) (cs : List Call)
    (h : ∃ i, i < cs.length ∧ net (k + i) = false) :
    (awaitEach net k cs).2 = false := by
  induction cs generalizing k with
  | nil =>
    obtain ⟨i, hi, _⟩ := h
    simp at hi
  | cons c cs ih =>
    by_cases h0 : net k = true
    · obtain ⟨i, hi, hf⟩ := h
      cases i with
      | zero => simp [h0] at hf
      | succ i =>
        have : (awaitEach net (k + 1) cs).2 = false :=
          ih (k + 1) ⟨i, by simpa using hi, by
            rwa [show k + (i + 1) = k + 1 + i by omega] at hf⟩
        simp [awaitEach, h0, this]
    · simp [awaitEach, h0]

theorem mem_calls_awaitEach (net : Nat → Bool) (k : Nat) (cs : List Call) (c : Call)
    (h : c ∈ calls (awaitEach net k cs).1) : c ∈ cs := by
  induction cs generalizing k with
  | nil => simp [awaitEach, calls] at h
  | cons d cs ih =>
    by_cases h0 : net k = true
    · simp only [awaitEach, h0, if_true, calls, List.mem_cons] at h
      rcases h with h | h
      · exact h ▸ List.mem_cons_self _ _
      · exact List.mem_cons_of_mem _ (ih (k + 1) h)
    · simp only [awaitEach, h0, calls, List.mem_cons] at h
      simp at h
      exact h ▸ List.mem_cons_self _ _

/-- C11, as the source has it: when the target set of `markAll(value)` is not empty and
the user confirms, the list call is issued once, after the replace-calls, when every
replace-call resolves; when one of the replace-calls is rejected no list call is issued
at all (`fetchTasks()` stands inside the `try`, after the loop). -/
theorem markAll_refresh_iff_all_resolve (tasks : List Task) (value : Bool) (net : Nat → Bool)
    (hne : tasks.filter (fun t => t.completed != value) ≠ []) :
    ((∀ i, i < (tasks.filter (fun t => t.completed != value)).length → net i = true) →
      calls (markAll tasks value true net) =
          (tasks.filter (fun t => t.completed != value)).map
            (fun t => Call.updateTask t.id { t with completed := value }) ++ [Call.getTasks] ∧
        (calls (markAll tasks value true net)).count Call.getTasks = 1) ∧
    ((∃ i, i < (tasks.filter (fun t => t.completed != value)).length ∧ net i = false) →
      (calls (markAll tasks value true net)).count Call.getTasks = 0) := by
  have hlen : (tasks.filter (fun t => t.completed != value)).length ≠ 0 := by
    simpa [List.length_eq_zero] using hne
  have hnot : Call.getTasks ∉ (tasks.filter (fun t => t.completed != value)).map
      (fun t => Call.updateTask t.id { t with completed := value }) := by
    simp
  constructor
  · intro hall
    have hloop := awaitEach_resolve net 0
      ((tasks.filter (fun t => t.completed != value)).map
        (fun t => Call.updateTask t.id { t with completed := value }))
      (by simpa using hall)
    have hcalls : calls (markAll tasks value true net) =
        (tasks.filter (fun t => t.completed != value)).map
          (fun t => Call.updateTask t.id { t with completed := value }) ++ [Call.getTasks] := by
      simp only [markAll, if_neg hlen, hloop, fetchTasks]
      cases net (tasks.filter (fun t => t.completed != value)).length <;>
        simp [calls, calls_append, calls_map_comp]
    refine ⟨hcalls, ?_⟩
    rw [hcalls, List.count_append, List.count_eq_zero.mpr hnot]
    simp
  · intro hfail
    have hstop := awaitEach_stops net 0
      ((tasks.filter (fun t => t.completed != value)).map
        (fun t => Call.updateTask t.id { t with completed := value }))
      (by simpa using hfail)
    rw [List.count_eq_zero]
    intro hmem
    simp only [markAll, if_neg hlen, hstop] at hmem
    simp only [Bool.not_true, Bool.false_eq_true, if_false, calls, calls_append,
      List.append_nil] at hmem
    exact hnot (mem_calls_awaitEach net 0 _ _ hmem)

/-- Instance of C11 (amended) on three tasks of which one is pending: every call
resolves, one replace-call and then one list call are issued. -/
theorem markAll_refresh_iff_all_resolve_witness :
    twoOfThreeDone.filter (fun t => t.completed != true) ≠ [] ∧
    (∀ i, i < (twoOfThreeDone.filter (fun t => t.completed != true)).length →
      (fun _ : Nat => true) i = true) ∧
    (calls (markAll twoOfThreeDone true true (fun _ => true))).count Call.getTasks = 1 :=
  ⟨by decide, fun _ _ => rfl,
    ((markAll_refresh_iff_all_resolve twoOfThreeDone true (fun _ => true) (by decide)).1
      (fun _ _ => rfl)).2⟩

/-- C11 as stated fails: `markAll(false)` on a store with two completed tasks, confirmed,
with the second replace-call rejected, issues the two replace-calls and no list call. -/
theorem markAll_refresh_counterexample :
    twoOfThreeDone.filter (fun t => t.completed != false) ≠ [] ∧
    calls (markAll twoOfThreeDone false true secondFails) =
      [Call.updateTask 1 (flagged 1 false), Call.updateTask 3 (flagged 3 false)] ∧
    (calls (markAll twoOfThreeDone false true secondFails)).count Call.getTasks = 0 := by
  decide

/-! ## Properties of the add handler and of the single-task handlers -/

/-- A text made of stripped code points only trims to the empty text. -/
theorem trim_eq_empty (s : String) (h : ∀ c ∈ s.data, isTrimmed c = true) : trim s = "" := by
  have h1 : s.data.dropWhile isTrimmed = [] := List.dropWhile_eq_nil_iff.mpr h
  unfold trim
  rw [h1]
  rfl

/-- C12: when the title input is empty or holds only white space, `handleAddTask` leaves
the whole state as it was (the store and every form field), issues no network call, and
its only effect is the alert with the validation message, whatever the file reader and
the network would have answered. -/
theorem handleAddTask_blank_title (s : AppState) (read : Option String) (added : Bool)
    (listed : Option (Option (List Task)))
    (hblank : ∀ c ∈ s.newTask.data, isTrimmed c = true) :
    (handleAddTask s read added listed).1 = s ∧
    (handleAddTask s read added listed).2 = [Effect.alert "Please enter a task title!"] ∧
    calls (handleAddTask s read added listed).2 = [] := by
  have ht : trim s.newTask = "" := trim_eq_empty _ hblank
  simp [handleAddTask, ht, calls]

/-- Instance of C12: a title of two spaces and a tab, with a file chosen and every call
ready to resolve, leaves `blankForm` as it is and calls nothing. -/
theorem handleAddTask_blank_title_witness :
    (∀ c ∈ blankForm.newTask.data, isTrimmed c = true) ∧
    (handleAddTask blankForm (some "data:text/plain;base64,YQ==") true (some (some []))).1 =
      blankForm ∧
    calls (handleAddTask blankForm (some "data:text/plain;base64,YQ==") true
      (some (some []))).2 = [] :=
  ⟨by decide,
    (handleAddTask_blank_title blankForm (some "data:text/plain;base64,YQ==") true
      (some (some [])) (by decide)).1,
    (handleAddTask_blank_title blankForm (some "data:text/plain;base64,YQ==") true
      (some (some [])) (by decide)).2.2⟩

/-- C13: when no task of the store is completed, `clearCompleted` only shows the no-op
message (no confirmation, no remove-call, no list call), whatever the answers would be;
otherwise, when the user confirms and every call resolves, it issues one remove-call per
completed task, by id and in store order, then one list call, and no other call. -/
theorem clearCompleted_calls (tasks : List Task) :
    (tasks.filter (fun t => t.completed) = [] →
      ∀ (ok : Bool) (net : Nat → Bool),
        clearCompleted tasks ok net = [Effect.alert "No completed tasks to clear."] ∧
        calls (clearCompleted tasks ok net) = []) ∧
    (tasks.filter (fun t => t.completed) ≠ [] →
      calls (clearCompleted tasks true (fun _ => true)) =
        (tasks.filter (fun t => t.completed)).map (fun t => Call.deleteTask t.id) ++
          [Call.getTasks]) := by
  constructor
  · intro hnil ok net
    simp [clearCompleted, hnil, calls]
  · intro hne
    have hlen : (tasks.filter (fun t => t.completed)).length ≠ 0 := by
      simpa [List.length_eq_zero] using hne
    simp only [clearCompleted, if_neg hlen, awaitEach_all_resolve, fetchTasks]
    simp [calls, calls_append, calls_map_comp]

/-- Instance of C13: on a store whose first and last tasks are completed the calls are
the two remove-calls and the list call; on a store of pending tasks there is no call. -/
theorem clearCompleted_calls_witness :
    twoOfThreeDone.filter (fun t => t.completed) ≠ [] ∧
    calls (clearCompleted twoOfThreeDone true (fun _ => true)) =
      [Call.deleteTask 1, Call.deleteTask 3, Call.getTasks] ∧
    [flagged 1 false, flagged 2 false].filter (fun t => t.completed) = [] ∧
    calls (clearCompleted [flagged 1 false, flagged 2 false] true (fun _ => true)) = [] :=
  ⟨by decide,
    ((clearCompleted_calls twoOfThreeDone).2 (by decide)).trans (by decide),
    by decide,
    ((clearCompleted_calls [flagged 1 false, flagged 2 false]).1 (by decide) true
      (fun _ => true)).2⟩

/-- C14: `handleToggleComplete` issues one replace-call, addressed to the task's id, whose
record is the task's with `completed` negated and the other fields as they were;
`handleEditTask` with an answer that is not empty once trimmed issues one replace-call,
addressed to the task's id, whose record is the task's with `title` set to the trimmed
answer and the other fields as they were; in both a list call follows when the
replace-call resolves and nothing otherwise.  `handleEditTask` issues no call when the
prompt is cancelled or the answer is empty or holds only white space. -/
theorem single_task_replace_calls (task : Task) (net : Nat → Bool) :
    calls (handleToggleComplete task net) =
      Call.updateTask task.id
          { id := task.id, title := task.title, priority := task.priority,
            completed := !task.completed, deadline := task.deadline,
            created_at := task.created_at, attachment := task.attachment } ::
        (if net 0 then [Call.getTasks] else []) ∧
    (∀ newTitle : String, trim newTitle ≠ "" →
      calls (handleEditTask task (some newTitle) net) =
        Call.updateTask task.id
            { id := task.id, title := some (trim newTitle), priority := task.priority,
              completed := task.completed, deadline := task.deadline,
              created_at := task.created_at, attachment := task.attachment } ::
          (if net 0 then [Call.getTasks] else [])) ∧
    calls (handleEditTask task none net) = [] ∧
    calls (handleEditTask task (some "") net) = [] ∧
    (∀ newTitle : String, (∀ c ∈ newTitle.data, isTrimmed c = true) →
      calls (handleEditTask task (some newTitle) net) = []) := by
  refine ⟨?_, ?_, ?_, ?_, ?_⟩
  · cases h0 : net 0 <;> cases h1 : net 1 <;>
      simp [handleToggleComplete, fetchTasks, calls, h0, h1]
  · intro newTitle hne
    have hne' : newTitle ≠ "" := by
      intro h
      apply hne
      rw [h]
      decide
    cases h0 : net 0 <;> cases h1 : net 1 <;>
      simp [handleEditTask, fetchTasks, calls, h0, h1, hne, hne']
  · simp [handleEditTask, calls]
  · simp [handleEditTask, calls]
  · intro newTitle hblank
    simp [handleEditTask, calls, trim_eq_empty newTitle hblank]

/-- Instance of C14: editing the task titled "a" with the answer " b " sends the record
with the title "b"; an answer of blanks sends nothing. -/
theorem single_task_replace_calls_witness :
    trim " b " ≠ "" ∧
    calls (handleEditTask (titled 1 "a") (some " b ") (fun _ => true)) =
      [Call.updateTask 1 (titled 1 "b"), Call.getTasks] ∧
    (∀ c ∈ ("  " : String).data, isTrimmed c = true) ∧
    calls (handleEditTask (titled 1 "a") (some "  ") (fun _ => true)) = [] ∧
    calls (handleToggleComplete (flagged 2 false) (fun _ => true)) =
      [Call.updateTask 2 (flagged 2 true), Call.getTasks] :=
  ⟨by decide,
    ((single_task_replace_calls (titled 1 "a") (fun _ => true)).2.1 " b " (by decide)).trans
      (by decide),
    by decide,
    (single_task_replace_calls (titled 1 "a") (fun _ => true)).2.2.2.2 "  " (by decide),
    (single_task_replace_calls (flagged 2 false) (fun _ => true)).1.trans (by decide)⟩

/-! ## Stability of the `Priority` sort -/

theorem filter_rank_orderedInsert (k : Int) (a : Task) (l : List Task) :
    (List.orderedInsert (fun a b => rankOrZero b.priority - rankOrZero a.priority ≤ 0) a
        l).filter (fun t => rankOrZero t.priority = k) =
      (a :: l).filter (fun t => rankOrZero t.priority = k) := by
  induction l with
  | nil => simp
  | cons b l ih =>
    by_cases hab : rankOrZero b.priority - rankOrZero a.priority ≤ 0
    · simp [List.orderedInsert, hab]
    · have hlt : rankOrZero a.priority < rankOrZero b.priority := by omega
      simp only [List.orderedInsert, hab, if_false]
      by_cases hb : rankOrZero b.priority = k
      · have ha : ¬ rankOrZero a.priority = k := by omega
        rw [List.filter_cons_of_pos (by simpa using hb), ih]
        simp [List.filter_cons, ha, hb]
      · rw [List.filter_cons_of_neg (by simpa using hb), ih]
        by_cases ha : rankOrZero a.priority = k
        · simp [List.filter_cons, ha, hb]
        · simp [List.filter_cons, ha, hb]

/-- The stable sort by decreasing rank keeps, for each rank, the tasks of that rank in
the order they had. -/
theorem filter_rank_insertionSort (k : Int) (l : List Task) :
    (l.insertionSort (fun a b => rankOrZero b.priority - rankOrZero a.priority ≤ 0)).filter
        (fun t => rankOrZero t.priority = k) =
      l.filter (fun t => rankOrZero t.priority = k) := by
  induction l with
  | nil => rfl
  | cons a l ih =>
    rw [List.insertionSort, filter_rank_orderedInsert, List.filter_cons, List.filter_cons, ih]

theorem pair_sublist_filter (q : Task → Bool) (a b : Task) (l : List Task)
    (h : [a, b].Sublist l) (ha : a ∈ l.filter q) (hb : b ∈ l.filter q) :
    [a, b].Sublist (l.filter q) := by
  have hqa : q a = true := (List.mem_filter.mp ha).2
  have hqb : q b = true := (List.mem_filter.mp hb).2
  have h2 := h.filter q
  simpa [List.filter_cons, hqa, hqb] using h2

theorem pair_sublist_searchStep (rt : Runtime) (search : String) (a b : Task) (l : List Task)
    (h : [a, b].Sublist l) (ha : a ∈ searchStep rt search l)
    (hb : b ∈ searchStep rt search l) :
    [a, b].Sublist (searchStep rt search l) := by
  unfold searchStep at ha hb ⊢
  split_ifs at ha hb ⊢
  · exact pair_sublist_filter _ a b l h ha hb
  · exact h

theorem pair_sublist_statusStep (statusFilter : String) (a b : Task) (l : List Task)
    (h : [a, b].Sublist l) (ha : a ∈ statusStep statusFilter l)
    (hb : b ∈ statusStep statusFilter l) :
    [a, b].Sublist (statusStep statusFilter l) := by
  unfold statusStep at ha hb ⊢
  by_cases hc : statusFilter = "Completed"
  · have hp : ¬ statusFilter = "Pending" := by rw [hc]; decide
    simp only [hc, if_true] at ha hb ⊢
    rw [if_neg (by decide)] at ha hb ⊢
    exact pair_sublist_filter _ a b l h ha hb
  · simp only [hc, if_false] at ha hb ⊢
    split_ifs at ha hb ⊢
    · exact pair_sublist_filter _ a b l h ha hb
    · exact h

theorem pair_sublist_priorityStep (priorityFilter : String) (a b : Task) (l : List Task)
    (h : [a, b].Sublist l) (ha : a ∈ priorityStep priorityFilter l)
    (hb : b ∈ priorityStep priorityFilter l) :
    [a, b].Sublist (priorityStep priorityFilter l) := by
  unfold priorityStep at ha hb ⊢
  split_ifs at ha hb ⊢
  · exact pair_sublist_filter _ a b l h ha hb
  · exact h

/-- Where the `Priority` sort does what it is written for: when no priority of the list
is the name of an inherited member, two tasks of equal rank that both appear in
`filteredTasks` appear there in the relative order they have in the store list, and for
every rank the tasks of that rank are in the order the filter steps left them. -/
theorem filteredTasks_priority_stable_of_own (rt : Runtime) (tasks : List Task)
    (search statusFilter priorityFilter : String)
    (hown : ∀ t ∈ tasks, inherited t.priority = false) :
    (∀ a b : Task, rankOrZero a.priority = rankOrZero b.priority → [a, b].Sublist tasks →
      a ∈ filteredTasks rt tasks search statusFilter priorityFilter "Priority" →
      b ∈ filteredTasks rt tasks search statusFilter priorityFilter "Priority" →
      [a, b].Sublist (filteredTasks rt tasks search statusFilter priorityFilter "Priority")) ∧
    (∀ k : Int,
      (filteredTasks rt tasks search statusFilter priorityFilter "Priority").filter
          (fun t => rankOrZero t.priority = k) =
        (priorityStep priorityFilter
          (statusStep statusFilter (searchStep rt search tasks))).filter
          (fun t => rankOrZero t.priority = k)) := by
  have hown' : ∀ t ∈ priorityStep priorityFilter
      (statusStep statusFilter (searchStep rt search tasks)), inherited t.priority = false :=
    fun t ht =>
      hown t ((filterSteps_sublist rt tasks search statusFilter priorityFilter).subset ht)
  have hsort := sort_cmpPriority_of_own _ hown'
  constructor
  · intro a b hrank hab ha hb
    unfold filteredTasks at ha hb ⊢
    rw [sortStep_priority] at ha hb ⊢
    have ha3 := (sort_perm _ _).subset ha
    have hb3 := (sort_perm _ _).subset hb
    have ha2 := (priorityStep_sublist _ _).subset ha3
    have hb2 := (priorityStep_sublist _ _).subset hb3
    have ha1 := (statusStep_sublist _ _).subset ha2
    have hb1 := (statusStep_sublist _ _).subset hb2
    have h1 := pair_sublist_searchStep rt search a b tasks hab ha1 hb1
    have h2 := pair_sublist_statusStep statusFilter a b _ h1 ha2 hb2
    have h3 := pair_sublist_priorityStep priorityFilter a b _ h2 ha3 hb3
    rw [hsort]
    exact List.pair_sublist_insertionSort (by omega) h3
  · intro k
    unfold filteredTasks
    rw [sortStep_priority, hsort, filter_rank_insertionSort]

/-- C15, the code at the failing input: on the seven tasks of `sevenRanked`, with no
search and no filter, the array the memo sorts is the store list; task 4 has the priority
"constructor", against which the comparator is NaN, and V8 sorts the array to the ids
1, 2, 6, 7, 3, 4, 5: the medium task 7 now stands before the medium task 5, which
preceded it in the store. -/
theorem sortShort_priority_unstable :
    priorityStep "All" (statusStep "All" (searchStep plainRuntime "" sevenRanked)) =
      sevenRanked ∧
    rankOrZero (ranked 5 (some "Medium")).priority =
      rankOrZero (ranked 7 (some "Medium")).priority ∧
    [ranked 5 (some "Medium"), ranked 7 (some "Medium")].Sublist sevenRanked ∧
    sortShort cmpPriority sevenRanked =
      [ranked 1 (some "High"), ranked 2 (some "High"), ranked 6 (some "High"),
        ranked 7 (some "Medium"), ranked 3 (some "Low"), ranked 4 (some "constructor"),
        ranked 5 (some "Medium")] ∧
    ¬ [ranked 5 (some "Medium"), ranked 7 (some "Medium")].Sublist
      (sortShort cmpPriority sevenRanked) := by
  decide

end TaskManager
